import Mathlib

/-!
Verification of the AR entity-pool / session-lifecycle code of the
Mixed-Reality repository.

Each definition below is a shallow embedding of a concrete function of the
JavaScript source.  External engines (three.js scene graph, cannon-es
physics, the WebXR device API) are treated as black boxes: their observable
effects (body added to the physics world, mesh visibility, Euclidean
distance between two positions, Date.now timestamps) are carried explicitly
in the state or passed as parameters.  Times are integers (milliseconds, as
Date.now returns), scalar quantities are rationals.
-/

/-- A marble of the marble-shooter demos.  `id` identifies the underlying
mesh/body pair (an object identity in JavaScript); `creationTime` is the
`creationTime` field written from `Date.now()`. -/
structure Marble where
  id : ℕ
  creationTime : ℤ
  deriving DecidableEq, Repr

namespace MSPool

/-- State of `MarbleShooter` from
`src/webxr-ar-marble-shooter/js/MarbleShooter.js` (the variant with an
inactive pool).  `worldBodies` is the set of marble ids whose physics body
is currently added to `physicsWorld` (cannon-es `addBody` ignores a body
that is already present, `removeBody` deletes it, so the array of bodies
behaves as a set of object identities); `visibleIds` is the set of marble
ids whose `mesh.visible` flag is true.  `nextId` feeds fresh object
identities to `createNewMarble`. -/
structure Shooter where
  marbles : List Marble
  inactiveMarbles : List Marble
  maxMarbles : ℕ
  marbleLifetime : ℤ
  worldBodies : Finset ℕ
  visibleIds : Finset ℕ
  nextId : ℕ
  deriving DecidableEq

/-- `createNewMarble` (MarbleShooter.js lines 114-142): builds a fresh
mesh (visible by default) added to the scene and a fresh body added to the
physics world, with `creationTime: Date.now()`.  It does not touch
`this.marbles`; callers do. -/
def createNewMarble (now : ℤ) (s : Shooter) : Marble × Shooter :=
  let m : Marble := ⟨s.nextId, now⟩
  (m, { s with
          worldBodies := insert m.id s.worldBodies,
          visibleIds := insert m.id s.visibleIds,
          nextId := s.nextId + 1 })

/-- `prewarmMarblePool` (MarbleShooter.js lines 55-62): `count` times,
create a new marble, hide its mesh, remove its body from the physics
world, and push it onto `inactiveMarbles`. -/
def prewarmMarblePool (now : ℤ) : ℕ → Shooter → Shooter
  | 0, s => s
  | n + 1, s =>
    let p := createNewMarble now s
    prewarmMarblePool now n
      { p.2 with
          visibleIds := p.2.visibleIds.erase p.1.id,
          worldBodies := p.2.worldBodies.erase p.1.id,
          inactiveMarbles := p.2.inactiveMarbles ++ [p.1] }

/-- `createMarble` (MarbleShooter.js lines 65-111).  Three branches, in
source order: (1) pop an inactive marble (JavaScript `Array.pop` takes the
last element), make it visible, add its body back, stamp
`creationTime = Date.now()`, push it onto `marbles`; (2) at capacity,
`shift` the oldest active marble, restamp its `creationTime`, and push it
back (recycling in place); (3) otherwise create a brand new marble and
push it.  The `none` result in branch (2) models the TypeError JavaScript
would raise when `shift()` returns `undefined`; it is reachable only with
`maxMarbles = 0`.  Velocity resets and material changes have no bearing on
pool membership and are not tracked. -/
def createMarble (now : ℤ) (s : Shooter) : Option Marble × Shooter :=
  match s.inactiveMarbles.getLast? with
  | some m =>
    let m' : Marble := { m with creationTime := now }
    (some m',
      { s with
          inactiveMarbles := s.inactiveMarbles.dropLast,
          visibleIds := insert m.id s.visibleIds,
          worldBodies := insert m.id s.worldBodies,
          marbles := s.marbles ++ [m'] })
  | none =>
    if s.marbles.length ≥ s.maxMarbles then
      match s.marbles with
      | [] => (none, s)
      | oldest :: rest =>
        let m' : Marble := { oldest with creationTime := now }
        (some m', { s with marbles := rest ++ [m'] })
    else
      let p := createNewMarble now s
      (some p.1, { p.2 with marbles := p.2.marbles ++ [p.1] })

/-- Net pool effect of `shoot` (MarbleShooter.js lines 32-52): it calls
`createMarble` and then re-writes `creationTime = Date.now()` on the
returned marble — the same value `createMarble` already stamped, so the
state effect is exactly `createMarble`'s.  Position and impulse go to the
external physics body and are not part of pool state. -/
def spawn (now : ℤ) (s : Shooter) : Shooter :=
  (createMarble now s).2

end MSPool

namespace P7

/-- State of the `MarbleShooter` variant in `src/unnamed/part_007`, which
keeps no inactive pool. -/
structure Shooter where
  marbles : List Marble
  maxMarbles : ℕ
  nextId : ℕ
  deriving DecidableEq

/-- `createMarble` (part_007 lines 50-97).  At capacity it `shift`s the
oldest marble, resets its velocity and material, and returns it — without
pushing it back onto `this.marbles`.  Otherwise it creates a fresh marble
and pushes it.  The `none` result models the TypeError on `shift()` of an
empty array (reachable only with `maxMarbles = 0`). -/
def createMarble (now : ℤ) (s : Shooter) : Option Marble × Shooter :=
  if s.marbles.length ≥ s.maxMarbles then
    match s.marbles with
    | [] => (none, s)
    | oldest :: rest => (some oldest, { s with marbles := rest })
  else
    let m : Marble := ⟨s.nextId, now⟩
    (some m, { s with marbles := s.marbles ++ [m], nextId := s.nextId + 1 })

/-- Net pool effect of `shoot` (part_007 lines 27-48): `createMarble`,
then `creationTime = Date.now()` on the returned marble.  In the recycle
branch that marble is no longer in `this.marbles`, so the write does not
affect the pool; in the fresh branch the model already stamped `now`. -/
def spawn (now : ℤ) (s : Shooter) : Shooter :=
  (createMarble now s).2

end P7

/-- Capacity-3 scenario states: four spawns A,B,C,D at times 1,2,3,4. -/
def p7After4 : P7.Shooter :=
  P7.spawn 4 (P7.spawn 3 (P7.spawn 2 (P7.spawn 1 ⟨[], 3, 0⟩)))

def msAfter4 : MSPool.Shooter :=
  MSPool.spawn 4 (MSPool.spawn 3 (MSPool.spawn 2 (MSPool.spawn 1
    ⟨[], [], 3, 10000, ∅, ∅, 0⟩)))

/-- C1.  The FIFO pool claim fails on the part_007 variant: with capacity
3 and spawns A,B,C,D (creation times 1,2,3,4), `createMarble` at capacity
shifts the oldest marble out and returns it without re-inserting it, so
after the fourth spawn the tracked pool is [B, C] — size 2, not
min(4, 3) = 3, and the newest spawn D (the recycled object) is untracked.
The sibling `MarbleShooter.js` variant pushes the recycled marble back and
does satisfy the scenario: its pool after the four spawns holds exactly
the three most recent creation times 2, 3, 4. -/
theorem p7_spawn_at_capacity_shrinks_pool :
    p7After4.marbles.map Marble.creationTime = [2, 3] ∧
    p7After4.marbles.length = 2 ∧
    p7After4.marbles.length ≠ min 4 3 ∧
    msAfter4.marbles.map Marble.creationTime = [2, 3, 4] ∧
    msAfter4.marbles.length = min 4 3 := by
  refine ⟨?_, ?_, ?_, ?_, ?_⟩ <;> decide

namespace Galaga

/-- Owner tag of a projectile (the `owner` string of part_005). -/
inductive Owner where
  | player
  | enemy
  deriving DecidableEq, Repr

/-- `Projectile` of `src/unnamed/part_005`.  Positions live in an abstract
type `Pos` (three.js vectors); the Euclidean `distanceTo` of the render
library is passed to the collision test as a function `dist`.  `speed` is
0.15 for player projectiles and 0.08 for enemy ones (line 7); `lifespan`
is 2000 ms; `radius` 0.02. -/
structure Projectile (Pos : Type) where
  pos : Pos
  direction : Pos
  speed : ℚ
  owner : Owner
  lifespan : ℤ
  creationTime : ℤ
  active : Bool
  radius : ℚ

/-- `Projectile.checkCollision` (part_005 lines 151-156): false for an
inactive projectile, otherwise a strict sphere-sphere test
`distance < this.radius + targetRadius`. -/
def Projectile.checkCollision {Pos : Type} (dist : Pos → Pos → ℚ)
    (p : Projectile Pos) (targetPos : Pos) (targetRadius : ℚ) : Bool :=
  if !p.active then false
  else decide (dist p.pos targetPos < p.radius + targetRadius)

/-- `Projectile.hasExpired` (part_005 lines 158-160):
`Date.now() - creationTime > lifespan`, strictly. -/
def Projectile.hasExpired {Pos : Type} (now : ℤ) (p : Projectile Pos) : Bool :=
  decide (now - p.creationTime > p.lifespan)

/-- `Target` of `src/unnamed/part_006` (marble-shooter target): `radius`
is its collision radius, `active` is cleared by `explode()`. -/
structure Target (Pos : Type) where
  pos : Pos
  radius : ℚ
  active : Bool

/-- `Target.explode` (part_006 lines 1208 ff.): no-op when already
inactive, otherwise clears `active` (the visual effect is external). -/
def Target.explode {Pos : Type} (t : Target Pos) : Target Pos :=
  if !t.active then t else { t with active := false }

/-- `Target.checkCollision` (part_006 lines 1191-1206): false when the
target is inactive (the `!marble` guard cannot fire on a marble taken
from the active list); otherwise a strict test of the marble-to-target
distance against `this.radius + marble.body.shapes[0].radius`, exploding
the target on a hit.  Returns the hit flag and the updated target. -/
def Target.checkCollision {Pos : Type} (dist : Pos → Pos → ℚ)
    (t : Target Pos) (marblePos : Pos) (marbleRadius : ℚ) :
    Bool × Target Pos :=
  if !t.active then (false, t)
  else if dist marblePos t.pos < t.radius + marbleRadius then
    (true, t.explode)
  else (false, t)

end Galaga

/-- C2.  Both collision tests use strict inequality on the sphere-sphere
distance: for an active projectile (resp. target), a hit is registered
iff `distance < radiusA + radiusB`; at `distance = radiusA + radiusB`
(touching) no hit is registered, and at `distance = radiusA + radiusB - ε`
with `ε > 0` a hit is registered. -/
theorem collision_strict_inequality {Pos : Type} (dist : Pos → Pos → ℚ)
    (p : Galaga.Projectile Pos) (t : Galaga.Target Pos)
    (targetPos : Pos) (targetRadius marbleRadius ε : ℚ)
    (hp : p.active = true) (ht : t.active = true) (hε : 0 < ε) :
    (p.checkCollision dist targetPos targetRadius = true ↔
      dist p.pos targetPos < p.radius + targetRadius) ∧
    (dist p.pos targetPos = p.radius + targetRadius →
      p.checkCollision dist targetPos targetRadius = false) ∧
    (dist p.pos targetPos = p.radius + targetRadius - ε →
      p.checkCollision dist targetPos targetRadius = true) ∧
    ((t.checkCollision dist p.pos marbleRadius).1 = true ↔
      dist p.pos t.pos < t.radius + marbleRadius) ∧
    (dist p.pos t.pos = t.radius + marbleRadius →
      (t.checkCollision dist p.pos marbleRadius).1 = false) ∧
    (dist p.pos t.pos = t.radius + marbleRadius - ε →
      (t.checkCollision dist p.pos marbleRadius).1 = true) := by
  refine ⟨?_, ?_, ?_, ?_, ?_, ?_⟩
  · simp [Galaga.Projectile.checkCollision, hp]
  · intro h
    simp [Galaga.Projectile.checkCollision, hp, h]
  · intro h
    simp only [Galaga.Projectile.checkCollision, hp, Bool.not_true,
      Bool.false_eq_true, if_false, decide_eq_true_eq, h]
    linarith
  · simp only [Galaga.Target.checkCollision, ht, Bool.not_true,
      Bool.false_eq_true, if_false]
    split <;> simp_all
  · intro h
    simp [Galaga.Target.checkCollision, ht, h]
  · intro h
    simp only [Galaga.Target.checkCollision, ht, Bool.not_true,
      Bool.false_eq_true, if_false, h]
    rw [if_pos (by linarith)]

/-- Closed instance of `collision_strict_inequality`: positions on the
rational line with `dist a b = |a - b|`, a projectile of radius 1/50 at 0,
a target of radius 1/10 at 0, ε = 1/100. -/
theorem collision_strict_inequality_witness :
    ((⟨0, 0, 15/100, Galaga.Owner.player, 2000, 0, true, 1/50⟩ :
        Galaga.Projectile ℚ).checkCollision (fun a b => |a - b|) 0 (1/10)
      = true ↔ |(0 : ℚ) - 0| < 1/50 + 1/10) ∧
    (((⟨0, 1/10, true⟩ : Galaga.Target ℚ).checkCollision
        (fun a b => |a - b|) 0 (1/50)).1 = true ↔
      |(0 : ℚ) - 0| < 1/10 + 1/50) := by
  have h := collision_strict_inequality
    ((fun a b => |a - b|) : ℚ → ℚ → ℚ)
    ⟨0, 0, 15/100, Galaga.Owner.player, 2000, 0, true, 1/50⟩
    ⟨0, 1/10, true⟩ 0 (1/10) (1/50) (1/100) rfl rfl (by norm_num)
  exact ⟨h.1, h.2.2.2.1⟩

/-- The index-collection loop of `cleanupMarbles` (MarbleShooter.js lines
158-166 and part_007 lines 113-127): indices of the elements satisfying
`p`, counted from `i`. -/
def collectIdx {α : Type} (p : α → Bool) : List α → ℕ → List ℕ
  | [], _ => []
  | a :: as, i =>
    if p a then i :: collectIdx p as (i + 1) else collectIdx p as (i + 1)

theorem collectIdx_succ {α : Type} (p : α → Bool) (l : List α) (n : ℕ) :
    collectIdx p l (n + 1) = (collectIdx p l n).map (· + 1) := by
  induction l generalizing n with
  | nil => rfl
  | cons a as ih => by_cases h : p a <;> simp [collectIdx, h, ih]

namespace MSPool

/-- The slice of `MarbleShooter` state the removal loop of
`cleanupMarbles` mutates. -/
structure RemovalState where
  marbles : List Marble
  inactiveMarbles : List Marble
  worldBodies : Finset ℕ
  visibleIds : Finset ℕ
  deriving DecidableEq

/-- One iteration of the reverse-order removal loop (MarbleShooter.js
lines 172-185): read `this.marbles[index]`, hide its mesh, remove its
body from the physics world, push it onto `inactiveMarbles`, and splice
it out of `this.marbles`.  An out-of-range index (never produced by the
collection loop) reads `undefined`; the model leaves the state unchanged
there. -/
def removeStep (st : RemovalState) (i : ℕ) : RemovalState :=
  match st.marbles[i]? with
  | none => st
  | some m =>
    ⟨st.marbles.eraseIdx i,
     st.inactiveMarbles ++ [m],
     st.worldBodies.erase m.id,
     st.visibleIds.erase m.id⟩

/-- The removal criterion of `cleanupMarbles` (MarbleShooter.js lines
162-163): lived longer than `marbleLifetime`, strictly, or body fell
strictly below y = -10.  `posY` gives each body's current y coordinate
(owned by the physics engine). -/
def shouldRemove (now : ℤ) (posY : ℕ → ℚ) (lifetime : ℤ) (m : Marble) :
    Bool :=
  decide (now - m.creationTime > lifetime) || decide (posY m.id < -10)

/-- `cleanupMarbles` (MarbleShooter.js lines 154-186): collect the
indices of marbles meeting the removal criterion in a forward pass, then
remove them in reverse index order, recycling each into the inactive
pool.  (The early return when no index was collected is the identity the
loop computes anyway.) -/
def cleanupMarbles (now : ℤ) (posY : ℕ → ℚ) (s : Shooter) : Shooter :=
  let idxs := collectIdx (shouldRemove now posY s.marbleLifetime) s.marbles 0
  let r := idxs.reverse.foldl removeStep
    ⟨s.marbles, s.inactiveMarbles, s.worldBodies, s.visibleIds⟩
  { s with
      marbles := r.marbles,
      inactiveMarbles := r.inactiveMarbles,
      worldBodies := r.worldBodies,
      visibleIds := r.visibleIds }

/-- `remove` (MarbleShooter.js lines 194-206): detach every marble from
the scene, remove the active marbles' bodies from the physics world
(inactive bodies are already out), and clear both lists. -/
def removeAll (s : Shooter) : Shooter :=
  { s with
      worldBodies := s.marbles.foldl (fun w m => w.erase m.id) s.worldBodies,
      marbles := [],
      inactiveMarbles := [] }

theorem foldl_removeStep_shift (a : Marble) (js : List ℕ) :
    ∀ (m I : List Marble) (W V : Finset ℕ),
    (js.map (· + 1)).foldl removeStep ⟨a :: m, I, W, V⟩ =
      ⟨a :: (js.foldl removeStep ⟨m, I, W, V⟩).marbles,
       (js.foldl removeStep ⟨m, I, W, V⟩).inactiveMarbles,
       (js.foldl removeStep ⟨m, I, W, V⟩).worldBodies,
       (js.foldl removeStep ⟨m, I, W, V⟩).visibleIds⟩ := by
  induction js with
  | nil => intro m I W V; rfl
  | cons i js ih =>
    intro m I W V
    have h1 : ∀ st : RemovalState, ((i :: js).map (· + 1)).foldl removeStep st
        = (js.map (· + 1)).foldl removeStep (removeStep st (i + 1)) := by
      intro st; rfl
    have h1' : ∀ st : RemovalState, (i :: js).foldl removeStep st
        = js.foldl removeStep (removeStep st i) := by
      intro st; rfl
    rw [h1, h1']
    have hget : (a :: m)[i + 1]? = m[i]? := List.getElem?_cons_succ
    have herase : (a :: m).eraseIdx (i + 1) = a :: m.eraseIdx i := rfl
    cases hm : m[i]? with
    | none =>
      have h2 : removeStep ⟨a :: m, I, W, V⟩ (i + 1) = ⟨a :: m, I, W, V⟩ := by
        simp only [removeStep, hget, hm]
      have h3 : removeStep ⟨m, I, W, V⟩ i = ⟨m, I, W, V⟩ := by
        simp only [removeStep, hm]
      rw [h2, h3, ih]
    | some mm =>
      have h2 : removeStep ⟨a :: m, I, W, V⟩ (i + 1) =
          ⟨a :: m.eraseIdx i, I ++ [mm], W.erase mm.id, V.erase mm.id⟩ := by
        simp only [removeStep, hget, hm, herase]
      have h3 : removeStep ⟨m, I, W, V⟩ i =
          ⟨m.eraseIdx i, I ++ [mm], W.erase mm.id, V.erase mm.id⟩ := by
        simp only [removeStep, hm]
      rw [h2, h3, ih]

theorem foldl_removeStep_collect (p : Marble → Bool) :
    ∀ (l I : List Marble) (W V : Finset ℕ),
    ((collectIdx p l 0).reverse).foldl removeStep ⟨l, I, W, V⟩ =
      ⟨l.filter (fun a => !p a),
       I ++ (l.filter p).reverse,
       ((l.filter p).reverse).foldl (fun w m => w.erase m.id) W,
       ((l.filter p).reverse).foldl (fun v m => v.erase m.id) V⟩ := by
  intro l
  induction l with
  | nil => intro I W V; simp [collectIdx]
  | cons a as ih =>
    intro I W V
    by_cases h : p a
    · have hc : collectIdx p (a :: as) 0
          = 0 :: (collectIdx p as 0).map (· + 1) := by
        simp [collectIdx, h, collectIdx_succ]
      have hrev : (0 :: (collectIdx p as 0).map (· + 1)).reverse
          = ((collectIdx p as 0).reverse).map (· + 1) ++ [0] := by
        simp
      rw [hc, hrev, List.foldl_append, foldl_removeStep_shift, ih]
      have hstep : ∀ st : RemovalState, List.foldl removeStep st [0]
          = removeStep st 0 := by intro st; rfl
      rw [hstep]
      simp [removeStep, List.filter_cons, h, List.foldl_append,
        List.append_assoc]
    · have hc : collectIdx p (a :: as) 0
          = (collectIdx p as 0).map (· + 1) := by
        simp [collectIdx, h, collectIdx_succ]
      have hrev : ((collectIdx p as 0).map (· + 1)).reverse
          = ((collectIdx p as 0).reverse).map (· + 1) := by
        simp
      rw [hc, hrev, foldl_removeStep_shift, ih]
      simp [List.filter_cons, h]

/-- Membership after successively removing the ids of a list of marbles
from a finite set. -/
theorem mem_foldl_erase (lst : List Marble) :
    ∀ (W : Finset ℕ) (i : ℕ),
    (i ∈ lst.foldl (fun w m => w.erase m.id) W ↔
      i ∈ W ∧ ∀ m ∈ lst, m.id ≠ i) := by
  induction lst with
  | nil => intro W i; simp
  | cons a as ih =>
    intro W i
    rw [List.foldl_cons, ih]
    simp only [Finset.mem_erase, List.mem_cons]
    constructor
    · rintro ⟨⟨hne, hW⟩, hall⟩
      refine ⟨hW, ?_⟩
      rintro m (rfl | hm)
      · exact fun hc => hne hc.symm
      · exact hall m hm
    · rintro ⟨hW, hall⟩
      refine ⟨⟨fun hc => hall a (Or.inl rfl) hc.symm, hW⟩, ?_⟩
      exact fun m hm => hall m (Or.inr hm)

/-- The net effect of `cleanupMarbles` in closed form: kept marbles are
exactly those meeting neither removal criterion, in their original
order; removed ones are appended to the inactive pool (in reverse index
order, as the reverse splice loop pushes them) with their bodies pulled
from the physics world and their meshes hidden. -/
theorem cleanupMarbles_eq (now : ℤ) (posY : ℕ → ℚ) (s : Shooter) :
    cleanupMarbles now posY s =
      { s with
          marbles := s.marbles.filter
            (fun m => !shouldRemove now posY s.marbleLifetime m),
          inactiveMarbles := s.inactiveMarbles ++
            (s.marbles.filter (shouldRemove now posY s.marbleLifetime)).reverse,
          worldBodies :=
            ((s.marbles.filter (shouldRemove now posY s.marbleLifetime)).reverse).foldl
              (fun w m => w.erase m.id) s.worldBodies,
          visibleIds :=
            ((s.marbles.filter (shouldRemove now posY s.marbleLifetime)).reverse).foldl
              (fun v m => v.erase m.id) s.visibleIds } := by
  simp only [cleanupMarbles]
  rw [foldl_removeStep_collect]

end MSPool

/-- C3.  The cleanup sweep removes a marble iff its age strictly exceeds
the configured lifetime (`now - createdAt > lifetimeMs`) or its body's y
position is strictly below the floor threshold (-10); marbles meeting
neither criterion are kept in order, untouched.  In particular a marble
created at time t that has not fallen is still present after a sweep at
t + L - ε and absent after a sweep at t + L + ε (ε ≥ 1 ms), and
`Projectile.hasExpired` draws the same strict boundary at its lifespan. -/
theorem cleanup_strict_lifetime_boundary
    (s : MSPool.Shooter) (now t ε : ℤ) (posY : ℕ → ℚ) (m : Marble)
    {Pos : Type} (pr : Galaga.Projectile Pos)
    (hm : m ∈ s.marbles) (hmt : m.creationTime = t)
    (hfall : ¬ posY m.id < -10) (hε : 1 ≤ ε) (hpt : pr.creationTime = t) :
    (MSPool.cleanupMarbles now posY s).marbles =
      s.marbles.filter
        (fun x => !MSPool.shouldRemove now posY s.marbleLifetime x) ∧
    (m ∈ (MSPool.cleanupMarbles now posY s).marbles ↔
      ¬(now - m.creationTime > s.marbleLifetime ∨ posY m.id < -10)) ∧
    m ∈ (MSPool.cleanupMarbles (t + s.marbleLifetime - ε) posY s).marbles ∧
    m ∉ (MSPool.cleanupMarbles (t + s.marbleLifetime + ε) posY s).marbles ∧
    Galaga.Projectile.hasExpired (t + pr.lifespan - ε) pr = false ∧
    Galaga.Projectile.hasExpired (t + pr.lifespan + ε) pr = true := by
  have key : ∀ n : ℤ, (MSPool.cleanupMarbles n posY s).marbles =
      s.marbles.filter
        (fun x => !MSPool.shouldRemove n posY s.marbleLifetime x) := by
    intro n; rw [MSPool.cleanupMarbles_eq]
  have hmem : ∀ n : ℤ, (m ∈ (MSPool.cleanupMarbles n posY s).marbles ↔
      ¬(n - m.creationTime > s.marbleLifetime ∨ posY m.id < -10)) := by
    intro n
    rw [key n, List.mem_filter]
    simp [MSPool.shouldRemove, hm]
  refine ⟨key now, hmem now, ?_, ?_, ?_, ?_⟩
  · rw [hmem, hmt]
    rintro (hage | hy)
    · omega
    · exact hfall hy
  · rw [hmem, hmt]
    intro hc
    exact hc (Or.inl (by omega))
  · simp only [Galaga.Projectile.hasExpired, hpt, decide_eq_false_iff_not]
    omega
  · simp only [Galaga.Projectile.hasExpired, hpt, decide_eq_true_eq]
    omega

/-- Closed instance of `cleanup_strict_lifetime_boundary`: one marble
created at time 0, lifetime 10000 ms, resting at y = 0; sweeps at 9999
and 10001. -/
theorem cleanup_strict_lifetime_boundary_witness :
    (⟨0, 0⟩ : Marble) ∈
      (MSPool.cleanupMarbles (0 + 10000 - 1) (fun _ => 0)
        ⟨[⟨0, 0⟩], [], 20, 10000, {0}, {0}, 1⟩).marbles ∧
    (⟨0, 0⟩ : Marble) ∉
      (MSPool.cleanupMarbles (0 + 10000 + 1) (fun _ => 0)
        ⟨[⟨0, 0⟩], [], 20, 10000, {0}, {0}, 1⟩).marbles := by
  have h := cleanup_strict_lifetime_boundary
    ⟨[⟨0, 0⟩], [], 20, 10000, {0}, {0}, 1⟩ 0 0 1 (fun _ => 0) ⟨0, 0⟩
    ((⟨0, 0, 15/100, Galaga.Owner.player, 2000, 0, true, 1/50⟩ :
      Galaga.Projectile ℚ))
    (by decide) rfl (by norm_num) (by norm_num) rfl
  exact ⟨h.2.2.1, h.2.2.2.1⟩

namespace MarbleApp

/-- Session-scoped state of the `App` class embedded in `src/styles.css`
(the marble-shooter application): the XR session handle, the lazily
requested hit-test source and its request flag, the `local` reference
space, plus the flags the session callbacks toggle.  Handles are `Option`
over an abstract numeric identity. -/
structure SessionState where
  session : Option ℕ
  hitTestSource : Option ℕ
  hitTestSourceRequested : Bool
  xrRefSpace : Option ℕ
  gameActive : Bool
  startButtonShown : Bool
  deriving DecidableEq, Repr

/-- `App.onXRSessionStarted` (styles.css lines 392-416), up to the point
where the asynchronous `requestReferenceSpace` promise resolves: store
the session, clear `xrRefSpace`, hide the start button, activate the
game. -/
def onXRSessionStarted (sessionId : ℕ) (s : SessionState) : SessionState :=
  { s with
      session := some sessionId,
      xrRefSpace := none,
      startButtonShown := false,
      gameActive := true }

/-- `App.onXRSessionEnded` (styles.css lines 418-429): null the session,
the hit-test source and its request flag, deactivate the game, show the
start button again.  `xrRefSpace` is not touched. -/
def onXRSessionEnded (s : SessionState) : SessionState :=
  { s with
      session := none,
      hitTestSource := none,
      hitTestSourceRequested := false,
      gameActive := false,
      startButtonShown := true }

end MarbleApp

namespace PartyEnv

/-- Session-scoped state of `src/js/party-environment.js`: the module
globals `hitTestSource` and `hitTestSourceRequested` (lines 10-11) plus
the start-button visibility. -/
structure SessionState where
  hitTestSource : Option ℕ
  hitTestSourceRequested : Bool
  startButtonShown : Bool
  deriving DecidableEq, Repr

/-- `onSessionEnded` (party-environment.js lines 399-401): un-hide the
start button.  No session-scoped variable is reset. -/
def onSessionEnded (s : SessionState) : SessionState :=
  { s with startButtonShown := true }

/-- The per-frame lazy hit-test request (party-environment.js lines
731-738): when `hitTestSourceRequested` is false, request a source and
set the flag; once `hitTestSource` is present it is polled.  Used to show
that after a stale, never-reset flag the old source keeps being used. -/
def hitTestSetupStep (freshSource : ℕ) (s : SessionState) : SessionState :=
  if s.hitTestSourceRequested = false then
    { s with hitTestSource := some freshSource,
             hitTestSourceRequested := true }
  else s

end PartyEnv

/-- Counterexample for C4 at a concrete post-session state: ending the
session leaves the App variant's reference space set, and leaves the
party-environment variant's hit-test source and request flag set. -/
theorem session_end_stale_handles_counterexample :
    (MarbleApp.onXRSessionEnded ⟨some 7, some 3, true, some 5, true, false⟩).xrRefSpace
      ≠ none ∧
    (PartyEnv.onSessionEnded ⟨some 3, true, false⟩).hitTestSource ≠ none ∧
    (PartyEnv.onSessionEnded ⟨some 3, true, false⟩).hitTestSourceRequested ≠ false := by
  refine ⟨?_, ?_, ?_⟩ <;> decide

/-- C4 (amended).  After the AR session ends, the App variant nulls the
session, the hit-test source and the request flag but leaves the
reference space set — it is cleared only by the next `onXRSessionStarted`
— while the party-environment variant resets none of its session-scoped
handles, so its next session reuses the stale hit-test source: the lazy
request step never re-requests because the flag is still true. -/
theorem session_end_handle_reset_behavior :
    (∀ s : MarbleApp.SessionState,
      (MarbleApp.onXRSessionEnded s).session = none ∧
      (MarbleApp.onXRSessionEnded s).hitTestSource = none ∧
      (MarbleApp.onXRSessionEnded s).hitTestSourceRequested = false ∧
      (MarbleApp.onXRSessionEnded s).xrRefSpace = s.xrRefSpace) ∧
    (∀ (s : MarbleApp.SessionState) (id : ℕ),
      (MarbleApp.onXRSessionStarted id s).xrRefSpace = none) ∧
    (∀ s : PartyEnv.SessionState,
      (PartyEnv.onSessionEnded s).hitTestSource = s.hitTestSource ∧
      (PartyEnv.onSessionEnded s).hitTestSourceRequested
        = s.hitTestSourceRequested) ∧
    (∀ (s : PartyEnv.SessionState) (oldSrc fresh : ℕ),
      s.hitTestSource = some oldSrc → s.hitTestSourceRequested = true →
      (PartyEnv.hitTestSetupStep fresh
        (PartyEnv.onSessionEnded s)).hitTestSource = some oldSrc) := by
  refine ⟨fun s => ⟨rfl, rfl, rfl, rfl⟩, fun s id => rfl,
          fun s => ⟨rfl, rfl⟩, ?_⟩
  intro s oldSrc fresh hsrc hreq
  simp [PartyEnv.hitTestSetupStep, PartyEnv.onSessionEnded, hreq, hsrc]

/-- Closed instance of `session_end_handle_reset_behavior` at a concrete
stale state. -/
theorem session_end_handle_reset_behavior_witness :
    (PartyEnv.hitTestSetupStep 9
      (PartyEnv.onSessionEnded ⟨some 3, true, false⟩)).hitTestSource
      = some 3 :=
  session_end_handle_reset_behavior.2.2.2 ⟨some 3, true, false⟩ 3 9 rfl rfl

namespace ARFlow

/-- Feature sets passed to `navigator.xr.requestSession` by `startAR` in
`src/unnamed/part_002`: the standard configuration (required hit-test +
dom-overlay), the Quest configuration (no required features, optional
hit-test), and the reduced fallback (`requiredFeatures: []`,
`optionalFeatures: []`, lines 635-638). -/
inductive Features where
  | standard
  | questMinimal
  | reduced
  deriving DecidableEq, Repr

/-- State threaded through the AR session request flow of part_002: the
`arSessionAttempts` counter, the `isARMode` flag, whether a session is
running, whether `handleARSessionError` surfaced its user-visible message,
whether the non-AR fallback was offered, and the trace of feature sets
actually sent to `requestSession`. -/
structure FlowState where
  arSessionAttempts : ℕ
  isARMode : Bool
  sessionActive : Bool
  errorShown : Bool
  fallbackOffered : Bool
  requests : List Features
  deriving DecidableEq, Repr

/-- Initial page state: `arSessionAttempts` starts at 0, nothing
requested. -/
def initial : FlowState := ⟨0, false, false, false, false, []⟩

/-- `handleARSessionError` (part_002 lines 703-744): log and surface a
user-visible error message, leave AR mode, and — when
`arSessionAttempts >= 2` — offer the non-AR fallback mode. -/
def handleARSessionError (s : FlowState) : FlowState :=
  { s with
      errorShown := true,
      isARMode := false,
      fallbackOffered := s.fallbackOffered || decide (s.arSessionAttempts ≥ 2) }

/-- `startAR` (part_002 lines 546-658) with the outcome of each
`requestSession` call supplied as a parameter (`ok1` for the initial
request, `ok2` for the reduced-feature retry).  The function increments
`arSessionAttempts`, issues the initial request (standard or
Quest-minimal features); on failure, if `arSessionAttempts < 2` it
increments the counter and retries exactly once with the reduced feature
set, handing a second failure to `handleARSessionError`; otherwise it
hands the failure to `handleARSessionError` directly. -/
def startAR (quest ok1 ok2 : Bool) (s : FlowState) : FlowState :=
  let s1 := { s with
                isARMode := true,
                arSessionAttempts := s.arSessionAttempts + 1,
                requests := s.requests ++
                  [if quest then Features.questMinimal else Features.standard] }
  if ok1 then { s1 with sessionActive := true }
  else if s1.arSessionAttempts < 2 then
    let s2 := { s1 with
                  arSessionAttempts := s1.arSessionAttempts + 1,
                  requests := s1.requests ++ [Features.reduced] }
    if ok2 then { s2 with sessionActive := true }
    else handleARSessionError s2
  else handleARSessionError s1

end ARFlow

/-- C5.  From a fresh page, a failing AR session request is retried
exactly once, with the reduced feature set, before the user-visible
failure message is surfaced and the non-AR fallback mode is offered: when
both requests fail, exactly two requests go out (the second with reduced
features), the error is shown and fallback offered; when only the first
fails, the reduced retry succeeds with no error surfaced; when the first
succeeds there is no retry. -/
theorem session_request_retried_once :
    (ARFlow.startAR false false false ARFlow.initial).requests
      = [ARFlow.Features.standard, ARFlow.Features.reduced] ∧
    (ARFlow.startAR false false false ARFlow.initial).errorShown = true ∧
    (ARFlow.startAR false false false ARFlow.initial).fallbackOffered = true ∧
    (ARFlow.startAR false false false ARFlow.initial).sessionActive = false ∧
    (ARFlow.startAR false false true ARFlow.initial).requests
      = [ARFlow.Features.standard, ARFlow.Features.reduced] ∧
    (ARFlow.startAR false false true ARFlow.initial).sessionActive = true ∧
    (ARFlow.startAR false false true ARFlow.initial).errorShown = false ∧
    (ARFlow.startAR false true false ARFlow.initial).requests
      = [ARFlow.Features.standard] ∧
    (ARFlow.startAR false true false ARFlow.initial).sessionActive = true := by
  refine ⟨?_, ?_, ?_, ?_, ?_, ?_, ?_, ?_, ?_⟩ <;> decide

namespace MarbleApp

/-- `this.timeStep = 1/60` (styles.css `setupPhysics`, line 373). -/
def timeStep : ℚ := 1 / 60

/-- `this.maxSubSteps = 3` (styles.css `setupPhysics`, line 374). -/
def maxSubSteps : ℕ := 3

/-- Modelled from the spec: the fixed-timestep accumulator of the
external physics engine's `World.step(fixedDt, elapsedDt, maxSubsteps)`
(cannon-es), which `App.updatePhysics` (styles.css lines 536-549)
delegates to with the parameters above — the spec describes it as
stepping "with a fixed sub-step (e.g., 1/60 s) for up to N substeps
bounded by delta (accumulator pattern)".  Returns how many fixed
sub-steps run and the accumulator left over. -/
def stepLoop (dt : ℚ) : ℕ → ℚ → ℕ × ℚ
  | 0, acc => (0, acc)
  | n + 1, acc =>
    if dt ≤ acc then
      let r := stepLoop dt n (acc - dt)
      (r.1 + 1, r.2)
    else (0, acc)

/-- Modelled from the spec: `World.step` adds the frame delta to the
accumulator and consumes it in fixed sub-steps, at most `maxSub` of
them. -/
def worldStep (dt : ℚ) (maxSub : ℕ) (accumulator delta : ℚ) : ℕ × ℚ :=
  stepLoop dt maxSub (accumulator + delta)

/-- `App.updatePhysics(deltaTime)` (styles.css lines 536-549) calls
`this.physicsWorld.step(this.timeStep, deltaTime, this.maxSubSteps)`;
this is the sub-step count and remaining accumulator of that call. -/
def updatePhysicsSubsteps (accumulator delta : ℚ) : ℕ × ℚ :=
  worldStep timeStep maxSubSteps accumulator delta

end MarbleApp

/-- C6.  With the configured fixed sub-step of 1/60 s and up to 3
substeps, a frame whose delta is 1/30 s (accumulator previously empty)
runs the fixed physics sub-step exactly 2 times and consumes the full
delta (nothing left in the accumulator). -/
theorem frame_delta_two_substeps :
    MarbleApp.updatePhysicsSubsteps 0 (1 / 30) = (2, 0) := by
  norm_num [MarbleApp.updatePhysicsSubsteps, MarbleApp.worldStep,
    MarbleApp.stepLoop, MarbleApp.timeStep, MarbleApp.maxSubSteps]

namespace Galaga

/-- `this.formationPatterns` (webxr-ar-marble-shooter/js/app.js lines
35-64): classic arc, V formation, double row; offsets as (x, y, z). -/
def formationPatterns : List (List (ℚ × ℚ × ℚ)) :=
  [ [(-2/5, 1/2, -1), (-1/5, 1/2, -1), (0, 1/2, -1),
     (1/5, 1/2, -1), (2/5, 1/2, -1)],
    [(-2/5, 3/10, -1), (-1/5, 2/5, -1), (0, 1/2, -1),
     (1/5, 2/5, -1), (2/5, 3/10, -1)],
    [(-2/5, 1/2, -1), (-1/5, 1/2, -1), (0, 1/2, -1),
     (1/5, 1/2, -1), (2/5, 1/2, -1),
     (-3/10, 3/10, -1), (-1/10, 3/10, -1),
     (1/10, 3/10, -1), (3/10, 3/10, -1)] ]

/-- The pattern selection of `spawnEnemyWave` (app.js line 383 and
part_006 line 634):
`patternIndex = (this.level - 1) % this.formationPatterns.length`. -/
def patternIndex (level : ℕ) : ℕ :=
  (level - 1) % formationPatterns.length

end Galaga

/-- Counterexample for C7: at the starting level 1 the code picks pattern
index (1 - 1) % 3 = 0, not 1 % 3 = 1 as the claim's `level mod
patternCount` formula says (first divergence of many: every level not
divisible by 3 disagrees). -/
theorem pattern_index_counterexample :
    Galaga.patternIndex 1 ≠ 1 % Galaga.formationPatterns.length := by
  decide

/-- C7 (amended).  The formation pattern for a wave cycles with the
current difficulty level through the fixed three-pattern list, but the
index is (level - 1) mod patternCount, so level 1 uses pattern 0, level
2 pattern 1, level 3 pattern 2, level 4 pattern 0 again, with period 3
and the index always in range. -/
theorem pattern_index_cycles (level : ℕ) (h : 1 ≤ level) :
    Galaga.patternIndex level = (level - 1) % 3 ∧
    Galaga.patternIndex (level + 3) = Galaga.patternIndex level ∧
    Galaga.patternIndex level < Galaga.formationPatterns.length ∧
    Galaga.patternIndex 1 = 0 ∧ Galaga.patternIndex 2 = 1 ∧
    Galaga.patternIndex 3 = 2 ∧ Galaga.patternIndex 4 = 0 := by
  have hlen : Galaga.formationPatterns.length = 3 := by decide
  refine ⟨by simp [Galaga.patternIndex, hlen], ?_, ?_, by decide, by decide,
    by decide, by decide⟩
  · simp only [Galaga.patternIndex, hlen]
    omega
  · simp only [Galaga.patternIndex, hlen]
    omega

/-- Closed instance of `pattern_index_cycles` at level 1. -/
theorem pattern_index_cycles_witness :
    Galaga.patternIndex 1 = (1 - 1) % 3 ∧
    Galaga.patternIndex (1 + 3) = Galaga.patternIndex 1 :=
  ⟨(pattern_index_cycles 1 (by decide)).1, (pattern_index_cycles 1 (by decide)).2.1⟩

/-- The body of the queued-removal loops of `checkCollisions` (app.js
lines 474-479 and 482-486), with the index list already in the loop's
processing order (last collected first): each step dereferences
`arr[index].remove()` and then `arr.splice(index, 1)`.  When the index is
out of range of the current, already-shrunk array — which happens when a
projectile was queued twice, once for its hit and once for its expiry —
the dereference reads `undefined` and `.remove()` raises a TypeError
that aborts the loop and everything after it in the sweep: `none`. -/
def spliceRemoveLoop {α : Type} : List ℕ → List α → Option (List α)
  | [], l => some l
  | i :: rest, l =>
    if i < l.length then spliceRemoveLoop rest (l.eraseIdx i) else none

/-- One full queued-removal pass: JavaScript's
`for (i = toRemove.length - 1; i >= 0; i--)` iterates the collected
indices from the end, so the list is reversed before the loop runs. -/
def spliceRemove {α : Type} (idxs : List ℕ) (l : List α) :
    Option (List α) :=
  spliceRemoveLoop idxs.reverse l

namespace Galaga

/-- `Enemy` of `src/webxr-ar-marble-shooter/js/RoomScanner.js`: collision
radius 0.1 (line 240), health `Math.ceil(level / 3)` (line 239), `active`
cleared by `explode()`. -/
structure Enemy (Pos : Type) where
  pos : Pos
  radius : ℚ
  health : ℤ
  active : Bool

/-- `new Enemy(scene, position, level)` as far as game logic goes. -/
def mkEnemy {Pos : Type} (pos : Pos) (level : ℕ) : Enemy Pos :=
  ⟨pos, 1/10, ((level + 2) / 3 : ℕ), true⟩

/-- `Enemy.hit` (RoomScanner.js lines 530-555): decrement health; when it
reaches 0 or below, `explode()` clears `active` (the flash and particle
effects are external). -/
def Enemy.hit {Pos : Type} (e : Enemy Pos) : Enemy Pos :=
  let h := e.health - 1
  { e with health := h, active := if h ≤ 0 then false else e.active }

/-- `Enemy.isDead` (RoomScanner.js lines 685-687): `health <= 0`. -/
def Enemy.isDead {Pos : Type} (e : Enemy Pos) : Bool :=
  decide (e.health ≤ 0)

/-- The player ship as `checkCollisions` sees it (`getPosition`,
`getRadius`). -/
structure Player (Pos : Type) where
  pos : Pos
  radius : ℚ

/-- State of the galaga `App` (webxr-ar-marble-shooter/js/app.js)
touched by `spawnEnemyWave` and `checkCollisions`.  `maxEnemies = 20`,
`enemiesPerWave = 5` and `level = 1` initially (lines 21-25). -/
structure GameState (Pos : Type) where
  player : Option (Player Pos)
  projectiles : List (Projectile Pos)
  enemies : List (Enemy Pos)
  score : ℤ
  level : ℕ
  lives : ℤ
  gameActive : Bool
  maxEnemies : ℕ
  enemiesPerWave : ℕ
  enemyWaveCount : ℕ

/-- The inner `for (j …) if (projectile.checkCollision(enemy…)) { … ;
break }` loop of `checkCollisions` (app.js lines 440-457): scan enemies
in order for the first collision with `p`; on a hit, apply `Enemy.hit` to
it in place and report its index and updated value. -/
def hitScan {Pos : Type} (dist : Pos → Pos → ℚ) (p : Projectile Pos) :
    List (Enemy Pos) → Option (ℕ × Enemy Pos × List (Enemy Pos))
  | [] => none
  | e :: rest =>
    if p.checkCollision dist e.pos e.radius then
      some (0, e.hit, e.hit :: rest)
    else
      match hitScan dist p rest with
      | none => none
      | some (j, e', rest') => some (j + 1, e', e :: rest')

/-- Mutable data threaded through the projectile loop of
`checkCollisions`. -/
structure SweepAcc (Pos : Type) where
  enemies : List (Enemy Pos)
  projectilesToRemove : List ℕ
  enemiesToRemove : List ℕ
  score : ℤ
  lives : ℤ
  gameActive : Bool

/-- One iteration of the projectile loop of `checkCollisions` (app.js
lines 435-472) for projectile `p` at index `i`: a player projectile scans
the enemies and, on hitting enemy j, hits it, queues j for removal and
adds `100 * level` to the score if that kills it, and queues itself; an
enemy projectile checks the player and on a hit runs `playerHit` (life
lost, game over at 0 lives, lines 489-508); finally an expired projectile
queues itself (possibly a second time). -/
def processProjectile {Pos : Type} (dist : Pos → Pos → ℚ) (now : ℤ)
    (level : ℕ) (pl : Player Pos) (i : ℕ) (p : Projectile Pos)
    (acc : SweepAcc Pos) : SweepAcc Pos :=
  let acc1 :=
    if p.owner = Owner.player then
      match hitScan dist p acc.enemies with
      | none => acc
      | some (j, e', enemies') =>
        { acc with
            enemies := enemies',
            enemiesToRemove :=
              if e'.isDead then acc.enemiesToRemove ++ [j]
              else acc.enemiesToRemove,
            score := if e'.isDead then acc.score + 100 * level else acc.score,
            projectilesToRemove := acc.projectilesToRemove ++ [i] }
    else
      if p.checkCollision dist pl.pos pl.radius then
        { acc with
            lives := acc.lives - 1,
            gameActive :=
              if acc.lives - 1 ≤ 0 then false else acc.gameActive,
            projectilesToRemove := acc.projectilesToRemove ++ [i] }
      else acc
  if p.hasExpired now then
    { acc1 with projectilesToRemove := acc1.projectilesToRemove ++ [i] }
  else acc1

/-- The outer projectile loop of `checkCollisions`. -/
def sweepProjectiles {Pos : Type} (dist : Pos → Pos → ℚ) (now : ℤ)
    (level : ℕ) (pl : Player Pos) :
    ℕ → List (Projectile Pos) → SweepAcc Pos → SweepAcc Pos
  | _, [], acc => acc
  | i, p :: rest, acc =>
    sweepProjectiles dist now level pl (i + 1) rest
      (processProjectile dist now level pl i p acc)

/-- `App.checkCollisions` (app.js lines 428-487): early return without a
player; otherwise run the projectile loop, then splice out the queued
projectiles and, after that, the queued dead enemies, each in reverse
index order.  `none` is the TypeError a duplicate queued index raises
inside a removal loop (app.js line 477 or 484): the exception propagates
out of `checkCollisions`, so when the projectile loop throws, the enemy
splice loop (lines 482-486) never runs. -/
def checkCollisions {Pos : Type} (dist : Pos → Pos → ℚ) (now : ℤ)
    (s : GameState Pos) : Option (GameState Pos) :=
  match s.player with
  | none => some s
  | some pl =>
    let a := sweepProjectiles dist now s.level pl 0 s.projectiles
      ⟨s.enemies, [], [], s.score, s.lives, s.gameActive⟩
    match spliceRemove a.projectilesToRemove s.projectiles with
    | none => none
    | some projectiles' =>
      match spliceRemove a.enemiesToRemove a.enemies with
      | none => none
      | some enemies' =>
        some { s with
                 projectiles := projectiles',
                 enemies := enemies',
                 score := a.score,
                 lives := a.lives,
                 gameActive := a.gameActive }

/-- `App.spawnEnemyWave` (app.js lines 375-426): return unchanged when
the pool already holds `maxEnemies` or there is no camera; otherwise pick
the level's formation pattern and push
`min(pattern.length, enemiesPerWave)` fresh enemies, one per loop
iteration, with no further capacity check.  Each spawn position depends
on detected surfaces, randomness and the pattern offsets, all external;
`spawnPos i` stands for the position the i-th iteration computes. -/
def spawnEnemyWave {Pos : Type} (cam : Bool) (spawnPos : ℕ → Pos)
    (s : GameState Pos) : GameState Pos :=
  if s.enemies.length ≥ s.maxEnemies then s
  else if cam = false then s
  else
    let pattern := formationPatterns.getD (patternIndex s.level) []
    let k := min pattern.length s.enemiesPerWave
    { s with
        enemies := s.enemies ++
          (List.range k).map (fun i => mkEnemy (spawnPos i) s.level),
        enemyWaveCount := s.enemyWaveCount + 1 }

end Galaga

/-- C8.  An enemy with health 1 that takes one registered hit dies
(`isDead`), is spliced out of the active pool by the same
`checkCollisions` sweep that registered the hit, and that sweep adds the
per-kill value `100 * level` to the score — provided the hitting
projectile has not also expired that same frame (an expired hitter is
queued for removal twice and the duplicate index crashes the removal
loop before the enemy splice runs; see
`hit_with_expired_projectile_aborts_sweep`). -/
theorem one_hit_kill_same_sweep {Pos : Type} (dist : Pos → Pos → ℚ)
    (now : ℤ) (s : Galaga.GameState Pos) (pl : Galaga.Player Pos)
    (p : Galaga.Projectile Pos) (e : Galaga.Enemy Pos)
    (hpl : s.player = some pl) (hproj : s.projectiles = [p])
    (hen : s.enemies = [e]) (howner : p.owner = Galaga.Owner.player)
    (hact : p.active = true)
    (hcol : dist p.pos e.pos < p.radius + e.radius)
    (hhp : e.health = 1) (hexp : p.hasExpired now = false) :
    e.hit.isDead = true ∧
    (Galaga.checkCollisions dist now s).map (fun t => t.enemies)
      = some [] ∧
    (Galaga.checkCollisions dist now s).map (fun t => t.score)
      = some (s.score + 100 * s.level) := by
  have hc : p.checkCollision dist e.pos e.radius = true := by
    simp [Galaga.Projectile.checkCollision, hact, hcol]
  have hdead : e.hit.isDead = true := by
    simp [Galaga.Enemy.hit, Galaga.Enemy.isDead, hhp]
  have hhit : Galaga.hitScan dist p [e] = some (0, e.hit, [e.hit]) := by
    simp [Galaga.hitScan, hc]
  have hsweep : Galaga.sweepProjectiles dist now s.level pl 0 [p]
      ⟨[e], [], [], s.score, s.lives, s.gameActive⟩ =
      ⟨[e.hit], [0], [0], s.score + 100 * s.level, s.lives,
       s.gameActive⟩ := by
    simp [Galaga.sweepProjectiles, Galaga.processProjectile, howner,
      hhit, hdead, hexp]
  refine ⟨hdead, ?_, ?_⟩ <;>
    simp [Galaga.checkCollisions, hpl, hproj, hen, hsweep, spliceRemove,
      spliceRemoveLoop]

/-- The error path excluded by `one_hit_kill_same_sweep`'s last
hypothesis: when the single hitting projectile has also expired, it is
queued twice (app.js lines 455 and 470), the second pass of the removal
loop dereferences `this.projectiles[0]` of the emptied array — a
TypeError — and the sweep aborts before the enemy splice loop, so the
dead enemy survives the sweep. -/
theorem hit_with_expired_projectile_aborts_sweep {Pos : Type}
    (dist : Pos → Pos → ℚ) (now : ℤ) (s : Galaga.GameState Pos)
    (pl : Galaga.Player Pos) (p : Galaga.Projectile Pos)
    (e : Galaga.Enemy Pos)
    (hpl : s.player = some pl) (hproj : s.projectiles = [p])
    (hen : s.enemies = [e]) (howner : p.owner = Galaga.Owner.player)
    (hact : p.active = true)
    (hcol : dist p.pos e.pos < p.radius + e.radius)
    (hhp : e.health = 1) (hexp : p.hasExpired now = true) :
    Galaga.checkCollisions dist now s = none := by
  have hc : p.checkCollision dist e.pos e.radius = true := by
    simp [Galaga.Projectile.checkCollision, hact, hcol]
  have hdead : e.hit.isDead = true := by
    simp [Galaga.Enemy.hit, Galaga.Enemy.isDead, hhp]
  have hhit : Galaga.hitScan dist p [e] = some (0, e.hit, [e.hit]) := by
    simp [Galaga.hitScan, hc]
  have hsweep : Galaga.sweepProjectiles dist now s.level pl 0 [p]
      ⟨[e], [], [], s.score, s.lives, s.gameActive⟩ =
      ⟨[e.hit], [0, 0], [0], s.score + 100 * s.level, s.lives,
       s.gameActive⟩ := by
    simp [Galaga.sweepProjectiles, Galaga.processProjectile, howner,
      hhit, hdead, hexp]
  simp [Galaga.checkCollisions, hpl, hproj, hen, hsweep, spliceRemove,
    spliceRemoveLoop]

/-- Closed instance of `one_hit_kill_same_sweep`: one player projectile
(fresh, far from expiry) touching one health-1 enemy on the rational
line at level 1. -/
theorem one_hit_kill_same_sweep_witness :
    (Galaga.checkCollisions (fun a b => |a - b|) 0
      (⟨some ⟨0, 1/10⟩,
        [⟨0, 0, 15/100, Galaga.Owner.player, 2000, 0, true, 1/50⟩],
        [⟨0, 1/10, 1, true⟩], 0, 1, 3, true, 20, 5, 0⟩ :
        Galaga.GameState ℚ)).map (fun t => t.enemies) = some [] ∧
    (Galaga.checkCollisions (fun a b => |a - b|) 0
      (⟨some ⟨0, 1/10⟩,
        [⟨0, 0, 15/100, Galaga.Owner.player, 2000, 0, true, 1/50⟩],
        [⟨0, 1/10, 1, true⟩], 0, 1, 3, true, 20, 5, 0⟩ :
        Galaga.GameState ℚ)).map (fun t => t.score) = some (0 + 100 * 1) := by
  have h := one_hit_kill_same_sweep ((fun a b => |a - b|) : ℚ → ℚ → ℚ) 0
    ⟨some ⟨0, 1/10⟩,
      [⟨0, 0, 15/100, Galaga.Owner.player, 2000, 0, true, 1/50⟩],
      [⟨0, 1/10, 1, true⟩], 0, 1, 3, true, 20, 5, 0⟩
    ⟨0, 1/10⟩ ⟨0, 0, 15/100, Galaga.Owner.player, 2000, 0, true, 1/50⟩
    ⟨0, 1/10, 1, true⟩ rfl rfl rfl rfl rfl (by norm_num) rfl (by decide)
  exact ⟨h.2.1, h.2.2⟩

/-- The formation pattern indexed for any level is nonempty (each of the
three patterns has at least five offsets). -/
theorem pattern_length_pos (lv : ℕ) :
    1 ≤ (Galaga.formationPatterns.getD (Galaga.patternIndex lv) []).length := by
  have hlen : Galaga.formationPatterns.length = 3 := by decide
  have h : Galaga.patternIndex lv < 3 := by
    simp only [Galaga.patternIndex, hlen]
    omega
  have h3 : Galaga.patternIndex lv = 0 ∨ Galaga.patternIndex lv = 1 ∨
      Galaga.patternIndex lv = 2 := by omega
  rcases h3 with h0 | h0 | h0 <;> rw [h0] <;> decide

/-- C9.  `spawnEnemyWave` checks the `maxEnemies` capacity only on
entry: at or above capacity it changes nothing; below capacity (with a
camera available) it appends exactly
`min(pattern.length, enemiesPerWave)` enemies with no further check, so a
call entered with `maxEnemies - 1` enemies leaves the pool
`min(pattern.length, enemiesPerWave) - 1` over capacity. -/
theorem spawn_wave_single_entry_capacity_check {Pos : Type}
    (spawnPos : ℕ → Pos) (s : Galaga.GameState Pos) :
    (s.enemies.length ≥ s.maxEnemies →
      Galaga.spawnEnemyWave true spawnPos s = s) ∧
    (s.enemies.length < s.maxEnemies →
      (Galaga.spawnEnemyWave true spawnPos s).enemies.length =
        s.enemies.length +
          min (Galaga.formationPatterns.getD
            (Galaga.patternIndex s.level) []).length s.enemiesPerWave) ∧
    (s.enemies.length + 1 = s.maxEnemies → 1 ≤ s.enemiesPerWave →
      (Galaga.spawnEnemyWave true spawnPos s).enemies.length =
        s.maxEnemies +
          (min (Galaga.formationPatterns.getD
            (Galaga.patternIndex s.level) []).length s.enemiesPerWave - 1)) := by
  have hlow : ∀ h : s.enemies.length < s.maxEnemies,
      (Galaga.spawnEnemyWave true spawnPos s).enemies.length =
        s.enemies.length +
          min (Galaga.formationPatterns.getD
            (Galaga.patternIndex s.level) []).length s.enemiesPerWave := by
    intro h
    simp [Galaga.spawnEnemyWave, not_le.mpr h]
  refine ⟨?_, hlow, ?_⟩
  · intro h
    simp [Galaga.spawnEnemyWave, h]
  · intro hone hwave
    have hlt : s.enemies.length < s.maxEnemies := by omega
    have hk : 1 ≤ min (Galaga.formationPatterns.getD
        (Galaga.patternIndex s.level) []).length s.enemiesPerWave :=
      le_min (pattern_length_pos s.level) hwave
    rw [hlow hlt]
    omega

/-- Closed instance of `spawn_wave_single_entry_capacity_check`: one
enemy in a capacity-2 pool at level 1 (pattern of 5 offsets, 5 per
wave) ends the call with 6 enemies, 4 over capacity. -/
theorem spawn_wave_single_entry_capacity_check_witness :
    (Galaga.spawnEnemyWave true (fun _ => (0 : ℚ))
      ⟨none, [], [Galaga.mkEnemy 0 1], 0, 1, 3, true, 2, 5, 0⟩).enemies.length =
      2 + (min (Galaga.formationPatterns.getD
        (Galaga.patternIndex 1) []).length 5 - 1) :=
  (spawn_wave_single_entry_capacity_check (fun _ => (0 : ℚ))
    ⟨none, [], [Galaga.mkEnemy 0 1], 0, 1, 3, true, 2, 5, 0⟩).2.2
    rfl (by decide)

namespace MSPool

/-- Inductive invariant of the pooled `MarbleShooter`, strengthened with
the bookkeeping facts (distinct object identities, freshness of `nextId`)
needed to push it through every operation. -/
structure Balanced (s : Shooter) : Prop where
  active_world : ∀ m ∈ s.marbles, m.id ∈ s.worldBodies
  active_visible : ∀ m ∈ s.marbles, m.id ∈ s.visibleIds
  world_active : ∀ i ∈ s.worldBodies, ∃ m ∈ s.marbles, m.id = i
  inactive_world : ∀ m ∈ s.inactiveMarbles, m.id ∉ s.worldBodies
  inactive_visible : ∀ m ∈ s.inactiveMarbles, m.id ∉ s.visibleIds
  nodupActive : (s.marbles.map Marble.id).Nodup
  nodupInactive : (s.inactiveMarbles.map Marble.id).Nodup
  disjointIds : ∀ m ∈ s.marbles, ∀ m' ∈ s.inactiveMarbles, m.id ≠ m'.id
  boundActive : ∀ m ∈ s.marbles, m.id < s.nextId
  boundInactive : ∀ m ∈ s.inactiveMarbles, m.id < s.nextId
  boundVisible : ∀ i ∈ s.visibleIds, i < s.nextId

/-- The pool invariant as claimed: a marble of the system is in the
active list iff its body is in the physics world and its mesh is
visible; an inactive marble has its body out of the world and its mesh
hidden; no marble is in both lists. -/
def PoolInvariant (s : Shooter) : Prop :=
  (∀ m ∈ s.marbles ++ s.inactiveMarbles,
    (m ∈ s.marbles ↔ m.id ∈ s.worldBodies ∧ m.id ∈ s.visibleIds)) ∧
  (∀ m ∈ s.inactiveMarbles, m.id ∉ s.worldBodies ∧ m.id ∉ s.visibleIds) ∧
  ∀ m : Marble, ¬(m ∈ s.marbles ∧ m ∈ s.inactiveMarbles)

theorem balanced_poolInvariant {s : Shooter} (hb : Balanced s) :
    PoolInvariant s := by
  refine ⟨?_, fun m hm => ⟨hb.inactive_world m hm, hb.inactive_visible m hm⟩,
    fun m ⟨h1, h2⟩ => hb.disjointIds m h1 m h2 rfl⟩
  intro m hm
  constructor
  · intro h
    exact ⟨hb.active_world m h, hb.active_visible m h⟩
  · rintro ⟨hw, _⟩
    rcases List.mem_append.mp hm with h | h
    · exact h
    · exact absurd hw (hb.inactive_world m h)

end MSPool

namespace MSPool

theorem getLast?_decomp {α : Type} {l : List α} {m : α}
    (h : l.getLast? = some m) : l = l.dropLast ++ [m] := by
  have hne : l ≠ [] := by rintro rfl; simp at h
  have h1 := List.getLast?_eq_getLast l hne
  rw [h] at h1
  have h2 : l.getLast hne = m := by
    injection h1.symm
  rw [← h2]
  exact (List.dropLast_append_getLast hne).symm

theorem balanced_createMarble (now : ℤ) {s : Shooter} (hb : Balanced s) :
    Balanced (createMarble now s).2 := by
  cases hl : s.inactiveMarbles.getLast? with
  | some m =>
    have hdecomp := getLast?_decomp hl
    have hmem : m ∈ s.inactiveMarbles := by
      rw [hdecomp]; exact List.mem_append_right _ (by simp)
    have hdl_sub : ∀ x ∈ s.inactiveMarbles.dropLast, x ∈ s.inactiveMarbles := by
      intro x hx; rw [hdecomp]; exact List.mem_append_left _ hx
    have hnodup_in : ((s.inactiveMarbles.dropLast.map Marble.id)
        ++ [m.id]).Nodup := by
      have h := hb.nodupInactive
      rw [hdecomp, List.map_append] at h
      simpa using h
    have hdl_ne : ∀ x ∈ s.inactiveMarbles.dropLast, x.id ≠ m.id := by
      intro x hx heq
      exact (List.nodup_append.mp hnodup_in).2.2
        (List.mem_map_of_mem Marble.id hx) (by simp [heq])
    simp only [createMarble, hl]
    refine ⟨?_, ?_, ?_, ?_, ?_, ?_, ?_, ?_, ?_, ?_, ?_⟩
    · intro x hx
      rcases List.mem_append.mp hx with h | h
      · exact Finset.mem_insert_of_mem (hb.active_world x h)
      · have hx' : x = { m with creationTime := now } := by simpa using h
        subst hx'
        exact Finset.mem_insert_self _ _
    · intro x hx
      rcases List.mem_append.mp hx with h | h
      · exact Finset.mem_insert_of_mem (hb.active_visible x h)
      · have hx' : x = { m with creationTime := now } := by simpa using h
        subst hx'
        exact Finset.mem_insert_self _ _
    · intro i hi
      rcases Finset.mem_insert.mp hi with rfl | h
      · exact ⟨{ m with creationTime := now },
          List.mem_append_right _ (by simp), rfl⟩
      · obtain ⟨x, hx, hxi⟩ := hb.world_active i h
        exact ⟨x, List.mem_append_left _ hx, hxi⟩
    · intro x hx hmemw
      rcases Finset.mem_insert.mp hmemw with h | h
      · exact hdl_ne x hx h
      · exact hb.inactive_world x (hdl_sub x hx) h
    · intro x hx hmemv
      rcases Finset.mem_insert.mp hmemv with h | h
      · exact hdl_ne x hx h
      · exact hb.inactive_visible x (hdl_sub x hx) h
    · rw [List.map_append]
      refine List.nodup_append.mpr ⟨hb.nodupActive, by simp, ?_⟩
      intro a ha ha'
      obtain ⟨x, hx, rfl⟩ := List.mem_map.mp ha
      have : x.id = m.id := by simpa using ha'
      exact hb.disjointIds x hx m hmem this
    · exact (List.nodup_append.mp hnodup_in).1
    · intro x hx y hy
      rcases List.mem_append.mp hx with h | h
      · exact hb.disjointIds x h y (hdl_sub y hy)
      · have hx' : x = { m with creationTime := now } := by simpa using h
        subst hx'
        exact fun hc => hdl_ne y hy (Eq.symm hc)
    · intro x hx
      rcases List.mem_append.mp hx with h | h
      · exact hb.boundActive x h
      · have hx' : x = { m with creationTime := now } := by simpa using h
        subst hx'
        exact hb.boundInactive m hmem
    · intro x hx
      exact hb.boundInactive x (hdl_sub x hx)
    · intro i hi
      rcases Finset.mem_insert.mp hi with rfl | h
      · exact hb.boundInactive m hmem
      · exact hb.boundVisible i h
  | none =>
    have hinact : s.inactiveMarbles = [] := by
      cases hil : s.inactiveMarbles with
      | nil => rfl
      | cons a as =>
        rw [hil] at hl
        simp [List.getLast?_concat, List.getLast?] at hl
    simp only [createMarble, hl]
    by_cases hcap : s.marbles.length ≥ s.maxMarbles
    · rw [if_pos hcap]
      cases hms : s.marbles with
      | nil => exact hb
      | cons oldest rest =>
        have hbW := hb.active_world
        have hbV := hb.active_visible
        have hbwa := hb.world_active
        have hbn := hb.nodupActive
        have hbb := hb.boundActive
        rw [hms] at hbW hbV hbwa hbn hbb
        refine ⟨?_, ?_, ?_, ?_, ?_, ?_, ?_, ?_, ?_, ?_, ?_⟩
        · intro x hx
          rcases List.mem_append.mp hx with h | h
          · exact hbW x (List.mem_cons_of_mem _ h)
          · have hx' : x = { oldest with creationTime := now } := by simpa using h
            subst hx'
            exact hbW oldest (List.mem_cons_self _ _)
        · intro x hx
          rcases List.mem_append.mp hx with h | h
          · exact hbV x (List.mem_cons_of_mem _ h)
          · have hx' : x = { oldest with creationTime := now } := by simpa using h
            subst hx'
            exact hbV oldest (List.mem_cons_self _ _)
        · intro i hi
          obtain ⟨x, hx, hxi⟩ := hbwa i hi
          rcases List.mem_cons.mp hx with rfl | h
          · exact ⟨{ x with creationTime := now },
              List.mem_append_right _ (by simp), hxi⟩
          · exact ⟨x, List.mem_append_left _ h, hxi⟩
        · rw [hinact]; intro x hx; simp at hx
        · rw [hinact]; intro x hx; simp at hx
        · rw [List.map_append]
          rw [List.map_cons, List.nodup_cons] at hbn
          refine List.nodup_append.mpr ⟨hbn.2, by simp, ?_⟩
          intro a ha ha'
          have : a = oldest.id := by simpa using ha'
          subst this
          exact hbn.1 ha
        · rw [hinact]; simp
        · rw [hinact]; intro x hx y hy; simp at hy
        · intro x hx
          rcases List.mem_append.mp hx with h | h
          · exact hbb x (List.mem_cons_of_mem _ h)
          · have hx' : x = { oldest with creationTime := now } := by simpa using h
            subst hx'
            exact hbb oldest (List.mem_cons_self _ _)
        · rw [hinact]; intro x hx; simp at hx
        · exact hb.boundVisible
    · rw [if_neg hcap]
      simp only [createNewMarble]
      refine ⟨?_, ?_, ?_, ?_, ?_, ?_, ?_, ?_, ?_, ?_, ?_⟩
      · intro x hx
        rcases List.mem_append.mp hx with h | h
        · exact Finset.mem_insert_of_mem (hb.active_world x h)
        · have hx' : x = ⟨s.nextId, now⟩ := by simpa using h
          subst hx'
          exact Finset.mem_insert_self _ _
      · intro x hx
        rcases List.mem_append.mp hx with h | h
        · exact Finset.mem_insert_of_mem (hb.active_visible x h)
        · have hx' : x = ⟨s.nextId, now⟩ := by simpa using h
          subst hx'
          exact Finset.mem_insert_self _ _
      · intro i hi
        rcases Finset.mem_insert.mp hi with rfl | h
        · exact ⟨⟨s.nextId, now⟩, List.mem_append_right _ (by simp), rfl⟩
        · obtain ⟨x, hx, hxi⟩ := hb.world_active i h
          exact ⟨x, List.mem_append_left _ hx, hxi⟩
      · rw [hinact]; intro x hx; simp at hx
      · rw [hinact]; intro x hx; simp at hx
      · rw [List.map_append]
        refine List.nodup_append.mpr ⟨hb.nodupActive, by simp, ?_⟩
        intro a ha ha'
        obtain ⟨x, hx, rfl⟩ := List.mem_map.mp ha
        have hxe : x.id = s.nextId := by simpa using ha'
        exact absurd (hxe ▸ hb.boundActive x hx) (lt_irrefl _)
      · rw [hinact]; simp
      · rw [hinact]; intro x hx y hy; simp at hy
      · intro x hx
        rcases List.mem_append.mp hx with h | h
        · exact Nat.lt_succ_of_lt (hb.boundActive x h)
        · have hx' : x = ⟨s.nextId, now⟩ := by simpa using h
          subst hx'
          exact Nat.lt_succ_self _
      · rw [hinact]; intro x hx; simp at hx
      · intro i hi
        rcases Finset.mem_insert.mp hi with rfl | h
        · exact Nat.lt_succ_self _
        · exact Nat.lt_succ_of_lt (hb.boundVisible i h)

end MSPool

namespace MSPool

theorem balanced_prewarm (now : ℤ) (n : ℕ) :
    ∀ {s : Shooter}, Balanced s → Balanced (prewarmMarblePool now n s) := by
  induction n with
  | zero => exact fun hb => hb
  | succ k ih =>
    intro s hb
    have hnW : s.nextId ∉ s.worldBodies := by
      intro hmem
      obtain ⟨m, hm, hmi⟩ := hb.world_active _ hmem
      exact absurd (hmi ▸ hb.boundActive m hm) (lt_irrefl _)
    have hnV : s.nextId ∉ s.visibleIds := fun hmem =>
      absurd (hb.boundVisible _ hmem) (lt_irrefl _)
    simp only [prewarmMarblePool, createNewMarble,
      Finset.erase_insert hnW, Finset.erase_insert hnV]
    apply ih
    refine ⟨hb.active_world, hb.active_visible, hb.world_active,
      ?_, ?_, hb.nodupActive, ?_, ?_, ?_, ?_, ?_⟩
    · intro x hx
      rcases List.mem_append.mp hx with h | h
      · exact hb.inactive_world x h
      · have hx' : x = ⟨s.nextId, now⟩ := by simpa using h
        subst hx'
        exact hnW
    · intro x hx
      rcases List.mem_append.mp hx with h | h
      · exact hb.inactive_visible x h
      · have hx' : x = ⟨s.nextId, now⟩ := by simpa using h
        subst hx'
        exact hnV
    · rw [List.map_append]
      refine List.nodup_append.mpr ⟨hb.nodupInactive, by simp, ?_⟩
      intro a ha ha'
      obtain ⟨x, hx, rfl⟩ := List.mem_map.mp ha
      have hxe : x.id = s.nextId := by simpa using ha'
      exact absurd (hxe ▸ hb.boundInactive x hx) (lt_irrefl _)
    · intro x hx y hy
      rcases List.mem_append.mp hy with h | h
      · exact hb.disjointIds x hx y h
      · have hy' : y = ⟨s.nextId, now⟩ := by simpa using h
        subst hy'
        exact Nat.ne_of_lt (hb.boundActive x hx)
    · exact fun x hx => Nat.lt_succ_of_lt (hb.boundActive x hx)
    · intro x hx
      rcases List.mem_append.mp hx with h | h
      · exact Nat.lt_succ_of_lt (hb.boundInactive x h)
      · have hx' : x = ⟨s.nextId, now⟩ := by simpa using h
        subst hx'
        exact Nat.lt_succ_self _
    · exact fun i hi => Nat.lt_succ_of_lt (hb.boundVisible i hi)

end MSPool

namespace MSPool

theorem balanced_cleanup (now : ℤ) (posY : ℕ → ℚ) {s : Shooter}
    (hb : Balanced s) : Balanced (cleanupMarbles now posY s) := by
  rw [cleanupMarbles_eq]
  set p := shouldRemove now posY s.marbleLifetime with hp
  have hinj := List.inj_on_of_nodup_map hb.nodupActive
  have hkp_sub : ∀ x ∈ s.marbles.filter (fun m => !p m), x ∈ s.marbles :=
    fun x hx => (List.mem_filter.mp hx).1
  have hrm_sub : ∀ x ∈ s.marbles.filter p, x ∈ s.marbles :=
    fun x hx => (List.mem_filter.mp hx).1
  have hdistinct : ∀ x ∈ s.marbles.filter (fun m => !p m),
      ∀ y ∈ s.marbles.filter p, x.id ≠ y.id := by
    intro x hx y hy heq
    obtain ⟨hxm, hxp⟩ := List.mem_filter.mp hx
    obtain ⟨hym, hyp⟩ := List.mem_filter.mp hy
    have hxy := hinj hxm hym heq
    subst hxy
    rw [hyp] at hxp
    simp at hxp
  refine ⟨?_, ?_, ?_, ?_, ?_, ?_, ?_, ?_, ?_, ?_, ?_⟩
  · intro x hx
    rw [mem_foldl_erase]
    refine ⟨hb.active_world x (hkp_sub x hx), ?_⟩
    intro m hm
    exact fun hc => hdistinct x hx m (List.mem_reverse.mp hm) hc.symm
  · intro x hx
    rw [mem_foldl_erase]
    refine ⟨hb.active_visible x (hkp_sub x hx), ?_⟩
    intro m hm
    exact fun hc => hdistinct x hx m (List.mem_reverse.mp hm) hc.symm
  · intro i hi
    rw [mem_foldl_erase] at hi
    obtain ⟨hiW, hall⟩ := hi
    obtain ⟨x, hx, hxi⟩ := hb.world_active i hiW
    refine ⟨x, ?_, hxi⟩
    rw [List.mem_filter]
    refine ⟨hx, ?_⟩
    cases hpx : p x with
    | false => simp
    | true =>
      exact absurd hxi (hall x (List.mem_reverse.mpr
        (List.mem_filter.mpr ⟨hx, hpx⟩)))
  · intro y hy
    rcases List.mem_append.mp hy with h | h
    · intro hc
      rw [mem_foldl_erase] at hc
      exact hb.inactive_world y h hc.1
    · intro hc
      rw [mem_foldl_erase] at hc
      exact hc.2 y h rfl
  · intro y hy
    rcases List.mem_append.mp hy with h | h
    · intro hc
      rw [mem_foldl_erase] at hc
      exact hb.inactive_visible y h hc.1
    · intro hc
      rw [mem_foldl_erase] at hc
      exact hc.2 y h rfl
  · exact hb.nodupActive.sublist (List.Sublist.map _ (List.filter_sublist _))
  · rw [List.map_append]
    have hrmnd : ((s.marbles.filter p).map Marble.id).Nodup :=
      hb.nodupActive.sublist (List.Sublist.map _ (List.filter_sublist _))
    refine List.nodup_append.mpr ⟨hb.nodupInactive, ?_, ?_⟩
    · rw [List.map_reverse, List.nodup_reverse]
      exact hrmnd
    · intro a ha ha'
      obtain ⟨x, hx, rfl⟩ := List.mem_map.mp ha
      rw [List.map_reverse, List.mem_reverse] at ha'
      obtain ⟨y, hy, hye⟩ := List.mem_map.mp ha'
      exact hb.disjointIds y (hrm_sub y hy) x hx hye
  · intro x hx y hy
    rcases List.mem_append.mp hy with h | h
    · exact hb.disjointIds x (hkp_sub x hx) y h
    · exact hdistinct x hx y (List.mem_reverse.mp h)
  · exact fun x hx => hb.boundActive x (hkp_sub x hx)
  · intro x hx
    rcases List.mem_append.mp hx with h | h
    · exact hb.boundInactive x h
    · exact hb.boundActive x (hrm_sub x (List.mem_reverse.mp h))
  · intro i hi
    rw [mem_foldl_erase] at hi
    exact hb.boundVisible i hi.1

theorem balanced_removeAll {s : Shooter} (hb : Balanced s) :
    Balanced (removeAll s) := by
  refine ⟨?_, ?_, ?_, ?_, ?_, ?_, ?_, ?_, ?_, ?_, ?_⟩ <;>
    simp only [removeAll]
  · intro x hx; simp at hx
  · intro x hx; simp at hx
  · intro i hi
    rw [mem_foldl_erase] at hi
    obtain ⟨x, hx, hxi⟩ := hb.world_active i hi.1
    exact absurd hxi (hi.2 x hx)
  · intro x hx; simp at hx
  · intro x hx; simp at hx
  · simp
  · simp
  · intro x hx; simp at hx
  · intro x hx; simp at hx
  · intro x hx; simp at hx
  · exact hb.boundVisible

end MSPool

/-- C10.  In the pooled `MarbleShooter` variant every operation —
`prewarmMarblePool`, `createMarble`, `cleanupMarbles`, `remove` —
preserves the strengthened pool invariant `Balanced`, and any balanced
state satisfies the claimed invariant: a marble is in the active list iff
its body is in the physics world and its mesh visible, an inactive
marble has its body out of the world and its mesh hidden, and no marble
is in both lists at once. -/
theorem pool_operations_preserve_invariant :
    (∀ (now : ℤ) (n : ℕ) (s : MSPool.Shooter), MSPool.Balanced s →
      MSPool.Balanced (MSPool.prewarmMarblePool now n s)) ∧
    (∀ (now : ℤ) (s : MSPool.Shooter), MSPool.Balanced s →
      MSPool.Balanced (MSPool.createMarble now s).2) ∧
    (∀ (now : ℤ) (posY : ℕ → ℚ) (s : MSPool.Shooter), MSPool.Balanced s →
      MSPool.Balanced (MSPool.cleanupMarbles now posY s)) ∧
    (∀ s : MSPool.Shooter, MSPool.Balanced s →
      MSPool.Balanced (MSPool.removeAll s)) ∧
    (∀ s : MSPool.Shooter, MSPool.Balanced s → MSPool.PoolInvariant s) :=
  ⟨fun now n _ hb => MSPool.balanced_prewarm now n hb,
   fun now _ hb => MSPool.balanced_createMarble now hb,
   fun now posY _ hb => MSPool.balanced_cleanup now posY hb,
   fun _ hb => MSPool.balanced_removeAll hb,
   fun _ hb => MSPool.balanced_poolInvariant hb⟩

/-- Closed instance of `pool_operations_preserve_invariant`: the
constructor state (`maxMarbles = 20`, empty lists) is balanced, and after
the constructor's `prewarmMarblePool(8)` the claimed pool invariant
holds. -/
theorem pool_operations_preserve_invariant_witness :
    MSPool.PoolInvariant
      (MSPool.prewarmMarblePool 0 8 ⟨[], [], 20, 10000, ∅, ∅, 0⟩) := by
  have hinit : MSPool.Balanced ⟨[], [], 20, 10000, ∅, ∅, 0⟩ := by
    refine ⟨?_, ?_, ?_, ?_, ?_, ?_, ?_, ?_, ?_, ?_, ?_⟩ <;> simp
  exact pool_operations_preserve_invariant.2.2.2.2 _
    (pool_operations_preserve_invariant.1 0 8 _ hinit)
